import Mathlib

/-!
Shallow embedding of `dispatchers/libdispatcher.go` (cgrates): the weighted
round-robin connection selector (`WeightDispatcher`), its factory
(`newDispatcher`) and the operations `SetProfile`, `GetInstance`,
`NextConnID`, `MaxConns`.

Go's mutable receiver methods become state-passing functions: a method that
mutates `wd` returns the updated `WeightDispatcher` value; a method that
mutates its argument profile (the in-place `Sort` of `pfl.Conns`) also
returns the updated profile.  The slice indexing `wd.conns[wd.nextConnIdx]`
panics in Go when out of range; here `NextConnID` returns `none` in that
case.  The types `engine.DispatcherConns` (with `Sort` and `Clone`),
`engine.DispatcherProfile` and the constant `utils.MetaWeight` are not part
of the given source tree, so they are modelled from the spec, each marked
`Modelled from the spec:` in its doc comment.
-/

/-- Modelled from the spec: a connection descriptor, "an opaque identifier
(string/handle) plus a numeric weight/priority" (`engine.DispatcherConn`,
not under the given sources).  Weights are modelled as integers; only their
linear order is used. -/
structure DispatcherConn where
  ID : String
  Weight : Int
  deriving DecidableEq

/-- The connection pool type (`engine.DispatcherConns`): an ordered sequence
of connection descriptors. -/
abbrev DispatcherConns := List DispatcherConn

/-- Canonical order used by the pool sort: `a` comes before `b` when `a`'s
weight is at least `b`'s (weight descending). -/
def connBefore (a b : DispatcherConn) : Prop := b.Weight ≤ a.Weight

instance : DecidableRel connBefore :=
  fun a b => inferInstanceAs (Decidable (b.Weight ≤ a.Weight))

instance : IsTotal DispatcherConn connBefore :=
  ⟨fun a b => le_total b.Weight a.Weight⟩

instance : IsTrans DispatcherConn connBefore :=
  ⟨fun _ _ _ h1 h2 => le_trans h2 h1⟩

/-- Modelled from the spec: `engine.DispatcherConns.Sort` is not under the
given sources.  Spec §4.1: "sort the pool into canonical order (stable sort
by weight descending, ties broken by original order)".  `List.insertionSort`
is a stable sort, so ties keep declaration order. -/
def DispatcherConns.Sort (cs : DispatcherConns) : DispatcherConns :=
  List.insertionSort connBefore cs

/-- Modelled from the spec: `engine.DispatcherConns.Clone` is not under the
given sources.  Spec §3: pools are "cloned (deep-copied), never shared by
reference"; the deep copy rebuilds every descriptor cell. -/
def DispatcherConns.Clone (cs : DispatcherConns) : DispatcherConns :=
  cs.map (fun c => { ID := c.ID, Weight := c.Weight })

/-- Modelled from the spec: `engine.DispatcherProfile` is not under the given
sources.  Spec §6: "a structure containing an ordered set of
`{ID: string, Weight: number}` connection descriptors and a
`Strategy: string` field". -/
structure DispatcherProfile where
  Conns : DispatcherConns
  Strategy : String
  deriving DecidableEq

/-- Modelled from the spec: the recognized weighted round-robin strategy name
(`utils.MetaWeight`, not under the given sources); the spec treats it as one
fixed name in a closed enumeration, so its concrete value is irrelevant. -/
def MetaWeight : String := "*weight"

/-- `WeightDispatcher` selects the next connection based on weight
(source lines 57-61).  The embedded `sync.RWMutex` carries no sequential
state; the cursor `nextConnIdx` is a Go `int` that stays non-negative
(it is only set to `0` or incremented), modelled as `Nat`. -/
structure WeightDispatcher where
  conns : DispatcherConns
  nextConnIdx : Nat
  deriving DecidableEq

/-- `newDispatcher` (source lines 45-54): sorts the profile's connections in
place, then dispatches on the strategy name.  Returns the Go pair
`(d Dispatcher, err error)` as an `Except`, together with the (sorted)
profile the caller is left holding. -/
def newDispatcher (pfl : DispatcherProfile) :
    Except String WeightDispatcher × DispatcherProfile :=
  let pfl' : DispatcherProfile := { pfl with Conns := pfl.Conns.Sort }
  if pfl'.Strategy = MetaWeight then
    (Except.ok { conns := pfl'.Conns.Clone, nextConnIdx := 0 }, pfl')
  else
    (Except.error ("unsupported dispatch strategy: <" ++ pfl'.Strategy ++ ">"), pfl')

/-- `incrNextConnIdx` (source lines 65-70): increment the cursor, wrapping to
`0` once it passes `len(conns)-1`.  (For the empty pool Go compares against
`-1` and always resets; with `Nat` truncated subtraction the comparison
against `0` also always resets, so the models agree.) -/
def WeightDispatcher.incrNextConnIdx (wd : WeightDispatcher) : WeightDispatcher :=
  let wd' := { wd with nextConnIdx := wd.nextConnIdx + 1 }
  if wd'.nextConnIdx > wd'.conns.length - 1 then { wd' with nextConnIdx := 0 }
  else wd'

/-- `SetProfile` (source lines 72-79): sort the given profile's connections in
place, then (under the write lock) replace the pool with a clone and reset the
cursor.  Returns the updated dispatcher and the (sorted) profile. -/
def WeightDispatcher.SetProfile (_wd : WeightDispatcher) (pfl : DispatcherProfile) :
    WeightDispatcher × DispatcherProfile :=
  let pfl' : DispatcherProfile := { pfl with Conns := pfl.Conns.Sort }
  ({ conns := pfl'.Conns.Clone, nextConnIdx := 0 }, pfl')

/-- `GetInstance` (source lines 81-86): under the read lock, build a fresh
`WeightDispatcher` holding a clone of the pool (cursor starts at the zero
value).  Returns the clone together with the receiver after the call. -/
def WeightDispatcher.GetInstance (wd : WeightDispatcher) :
    WeightDispatcher × WeightDispatcher :=
  ({ conns := wd.conns.Clone, nextConnIdx := 0 }, wd)

/-- `NextConnID` (source lines 88-92): read the identifier at the cursor, then
advance the cursor.  The Go slice access panics when the index is out of
range; that panic is `none` here. -/
def WeightDispatcher.NextConnID (wd : WeightDispatcher) :
    Option (String × WeightDispatcher) :=
  match wd.conns[wd.nextConnIdx]? with
  | some c => some (c.ID, wd.incrNextConnIdx)
  | none => none

/-- `MaxConns` (source lines 94-96): the pool size. -/
def WeightDispatcher.MaxConns (wd : WeightDispatcher) : Nat :=
  wd.conns.length

/-- Run `NextConnID` a given number of times, collecting the returned
identifiers in order; `none` if any call panics. -/
def collectNext (wd : WeightDispatcher) : Nat → Option (List String × WeightDispatcher)
  | 0 => some ([], wd)
  | n + 1 =>
    match wd.NextConnID with
    | none => none
    | some (s, wd') =>
      match collectNext wd' n with
      | none => none
      | some (ids, wd'') => some (s :: ids, wd'')

/-- One `NextConnID` call viewed as a state transformer (state unchanged on
panic); used to talk about "after k calls". -/
def WeightDispatcher.advance (wd : WeightDispatcher) : WeightDispatcher :=
  match wd.NextConnID with
  | some (_, wd') => wd'
  | none => wd

-- Basic lemmas about the modelled pool operations.

theorem clone_eq (cs : DispatcherConns) : cs.Clone = cs := by
  simp [DispatcherConns.Clone]

theorem length_sort (cs : DispatcherConns) : cs.Sort.length = cs.length :=
  List.length_insertionSort connBefore cs

theorem sort_perm (cs : DispatcherConns) : cs.Sort.Perm cs :=
  List.perm_insertionSort connBefore cs

theorem sort_sorted (cs : DispatcherConns) : cs.Sort.Sorted connBefore :=
  List.sorted_insertionSort connBefore cs

theorem sort_ne_nil (cs : DispatcherConns) (h : cs ≠ []) : cs.Sort ≠ [] := by
  intro hnil
  apply h
  have := length_sort cs
  rw [hnil] at this
  exact List.length_eq_zero.mp this.symm

-- Step lemmas for the rotation cursor.

theorem nextConnID_in_bounds (cs : DispatcherConns) (i : Nat) (hi : i < cs.length) :
    WeightDispatcher.NextConnID ⟨cs, i⟩
      = some ((cs.get ⟨i, hi⟩).ID, WeightDispatcher.incrNextConnIdx ⟨cs, i⟩) := by
  simp [WeightDispatcher.NextConnID, List.getElem?_eq_getElem hi]

theorem nextConnID_out_of_bounds (cs : DispatcherConns) (i : Nat)
    (hi : cs.length ≤ i) : WeightDispatcher.NextConnID ⟨cs, i⟩ = none := by
  simp [WeightDispatcher.NextConnID, List.getElem?_eq_none hi]

theorem incr_wrap (cs : DispatcherConns) (i : Nat) (h : i + 1 = cs.length) :
    WeightDispatcher.incrNextConnIdx ⟨cs, i⟩ = ⟨cs, 0⟩ := by
  simp only [WeightDispatcher.incrNextConnIdx]
  rw [if_pos]
  omega

theorem incr_no_wrap (cs : DispatcherConns) (i : Nat) (h : i + 1 < cs.length) :
    WeightDispatcher.incrNextConnIdx ⟨cs, i⟩ = ⟨cs, i + 1⟩ := by
  simp only [WeightDispatcher.incrNextConnIdx]
  rw [if_neg]
  omega

theorem collectNext_all (cs : DispatcherConns) :
    ∀ k i, 0 < k → i + k = cs.length →
      collectNext ⟨cs, i⟩ k
        = some ((cs.drop i).map (fun c => c.ID), ⟨cs, 0⟩) := by
  intro k
  induction k with
  | zero => intro i hpos _; exact absurd hpos (by omega)
  | succ n ih =>
    intro i _ hsum
    have hi : i < cs.length := by omega
    simp only [collectNext, nextConnID_in_bounds cs i hi]
    rcases Nat.eq_zero_or_pos n with hn | hn
    · subst hn
      rw [incr_wrap cs i (by omega)]
      simp only [collectNext]
      have hdrop : cs.drop i = [cs.get ⟨i, hi⟩] := by
        rw [List.drop_eq_getElem_cons hi]
        simp [List.drop_eq_nil_of_le (by omega : cs.length ≤ i + 1)]
      rw [hdrop]
      rfl
    · rw [incr_no_wrap cs i (by omega), ih (i + 1) hn (by omega)]
      rw [List.drop_eq_getElem_cons hi]
      rfl

/-- Claim C1: for every profile with N ≥ 1 connections and the weighted
strategy, the selector built by the factory returns over N successive
`NextConnID` calls exactly the pool's identifiers in canonical order
(weight descending, stable ties by declaration order), each exactly once;
the state after those N calls equals the initial state, so the (N+1)-th
call returns the same identifier as the 1st (wraparound). -/
theorem weightDispatcher_rotation_cycle (pfl : DispatcherProfile)
    (hS : pfl.Strategy = MetaWeight) (hne : pfl.Conns ≠ [])
    (wd : WeightDispatcher) (hwd : (newDispatcher pfl).1 = Except.ok wd) :
    collectNext wd pfl.Conns.length
      = some (pfl.Conns.Sort.map (fun c => c.ID), wd)
    ∧ ∃ s wd', wd.NextConnID = some (s, wd')
        ∧ (pfl.Conns.Sort.map (fun c => c.ID)).head? = some s := by
  have hwd2 : wd = { conns := pfl.Conns.Sort, nextConnIdx := 0 } := by
    simp [newDispatcher, hS, clone_eq] at hwd
    exact hwd.symm
  subst hwd2
  have hlen : pfl.Conns.length = pfl.Conns.Sort.length := (length_sort pfl.Conns).symm
  have hpos : 0 < pfl.Conns.Sort.length := by
    rw [← hlen]
    exact List.length_pos.mpr hne
  constructor
  · rw [hlen]
    have h := collectNext_all pfl.Conns.Sort pfl.Conns.Sort.length 0 hpos (by omega)
    rw [List.drop_zero] at h
    exact h
  · rcases List.exists_cons_of_ne_nil (sort_ne_nil pfl.Conns hne) with ⟨c, rest, hcs⟩
    rw [hcs]
    refine ⟨c.ID, WeightDispatcher.incrNextConnIdx ⟨c :: rest, 0⟩, ?_, rfl⟩
    rw [nextConnID_in_bounds (c :: rest) 0 (by simp)]
    rfl

/-- Witness for C1 at the spec's own example profile
`[{A,10},{B,20},{C,20}]`, whose canonical order is `[B, C, A]`. -/
theorem weightDispatcher_rotation_cycle_witness :
    (collectNext ⟨[⟨"B",20⟩,⟨"C",20⟩,⟨"A",10⟩], 0⟩
        (DispatcherProfile.mk [⟨"A",10⟩,⟨"B",20⟩,⟨"C",20⟩] MetaWeight).Conns.length
      = some ((DispatcherProfile.mk [⟨"A",10⟩,⟨"B",20⟩,⟨"C",20⟩] MetaWeight).Conns.Sort.map
            (fun c => c.ID),
          ⟨[⟨"B",20⟩,⟨"C",20⟩,⟨"A",10⟩], 0⟩))
    ∧ ∃ s wd',
        WeightDispatcher.NextConnID ⟨[⟨"B",20⟩,⟨"C",20⟩,⟨"A",10⟩], 0⟩ = some (s, wd')
        ∧ ((DispatcherProfile.mk [⟨"A",10⟩,⟨"B",20⟩,⟨"C",20⟩] MetaWeight).Conns.Sort.map
            (fun c => c.ID)).head? = some s :=
  weightDispatcher_rotation_cycle
    ⟨[⟨"A",10⟩,⟨"B",20⟩,⟨"C",20⟩], MetaWeight⟩ rfl (by decide)
    ⟨[⟨"B",20⟩,⟨"C",20⟩,⟨"A",10⟩], 0⟩ rfl

/-- Counterexample for C2: `newDispatcher` calls `pfl.Conns.Sort()` on the
caller's profile, sorting its pool in place, so the profile handed in is not
left unmodified: for the pool `[{A,10},{B,20}]` the caller's profile comes
back with its connections reordered to `[{B,20},{A,10}]`. -/
theorem newDispatcher_sorts_profile_in_place :
    (newDispatcher ⟨[⟨"A",10⟩,⟨"B",20⟩], MetaWeight⟩).2
      ≠ ⟨[⟨"A",10⟩,⟨"B",20⟩], MetaWeight⟩ := by decide

/-- Claim C2 (amended): constructing a selector (and `SetProfile`) copies the
input profile's pool into the selector (a clone of the sorted pool) rather
than retaining it, but the call does modify the input profile: its pool is
sorted in place (a permutation of the original, strategy field untouched);
that in-place sort is the only modification. -/
theorem profile_frame_effect (pfl : DispatcherProfile) (wd d : WeightDispatcher)
    (hok : (newDispatcher pfl).1 = Except.ok d) :
    (newDispatcher pfl).2.Strategy = pfl.Strategy
    ∧ (newDispatcher pfl).2.Conns = pfl.Conns.Sort
    ∧ (newDispatcher pfl).2.Conns.Perm pfl.Conns
    ∧ d.conns = pfl.Conns.Sort.Clone
    ∧ (wd.SetProfile pfl).2.Strategy = pfl.Strategy
    ∧ (wd.SetProfile pfl).2.Conns = pfl.Conns.Sort
    ∧ (wd.SetProfile pfl).2.Conns.Perm pfl.Conns
    ∧ (wd.SetProfile pfl).1.conns = pfl.Conns.Sort.Clone := by
  have hd : d.conns = pfl.Conns.Sort.Clone := by
    by_cases h : pfl.Strategy = MetaWeight
    · simp [newDispatcher, h] at hok
      rw [← hok]
    · simp [newDispatcher, h] at hok
  by_cases h : pfl.Strategy = MetaWeight <;>
    simp [newDispatcher, WeightDispatcher.SetProfile, h, hd, sort_perm]

/-- Witness for C2's amended theorem at the pool `[{A,10},{B,20}]`. -/
theorem profile_frame_effect_witness :
    (newDispatcher ⟨[⟨"A",10⟩,⟨"B",20⟩], MetaWeight⟩).2.Strategy
        = (DispatcherProfile.mk [⟨"A",10⟩,⟨"B",20⟩] MetaWeight).Strategy
    ∧ (newDispatcher ⟨[⟨"A",10⟩,⟨"B",20⟩], MetaWeight⟩).2.Conns
        = (DispatcherProfile.mk [⟨"A",10⟩,⟨"B",20⟩] MetaWeight).Conns.Sort
    ∧ (newDispatcher ⟨[⟨"A",10⟩,⟨"B",20⟩], MetaWeight⟩).2.Conns.Perm
        (DispatcherProfile.mk [⟨"A",10⟩,⟨"B",20⟩] MetaWeight).Conns
    ∧ (WeightDispatcher.mk [⟨"B",20⟩,⟨"A",10⟩] 0).conns
        = (DispatcherProfile.mk [⟨"A",10⟩,⟨"B",20⟩] MetaWeight).Conns.Sort.Clone
    ∧ ((WeightDispatcher.mk [] 0).SetProfile
        ⟨[⟨"A",10⟩,⟨"B",20⟩], MetaWeight⟩).2.Strategy
        = (DispatcherProfile.mk [⟨"A",10⟩,⟨"B",20⟩] MetaWeight).Strategy
    ∧ ((WeightDispatcher.mk [] 0).SetProfile
        ⟨[⟨"A",10⟩,⟨"B",20⟩], MetaWeight⟩).2.Conns
        = (DispatcherProfile.mk [⟨"A",10⟩,⟨"B",20⟩] MetaWeight).Conns.Sort
    ∧ ((WeightDispatcher.mk [] 0).SetProfile
        ⟨[⟨"A",10⟩,⟨"B",20⟩], MetaWeight⟩).2.Conns.Perm
        (DispatcherProfile.mk [⟨"A",10⟩,⟨"B",20⟩] MetaWeight).Conns
    ∧ ((WeightDispatcher.mk [] 0).SetProfile
        ⟨[⟨"A",10⟩,⟨"B",20⟩], MetaWeight⟩).1.conns
        = (DispatcherProfile.mk [⟨"A",10⟩,⟨"B",20⟩] MetaWeight).Conns.Sort.Clone :=
  profile_frame_effect ⟨[⟨"A",10⟩,⟨"B",20⟩], MetaWeight⟩
    ⟨[], 0⟩ ⟨[⟨"B",20⟩,⟨"A",10⟩], 0⟩ rfl

/-- Counterexample for C5: the factory accepts an empty pool with the
weighted strategy, and the resulting selector reports `MaxConns = 0`, so the
returned integer is not always ≥ 1. -/
theorem maxConns_zero_on_empty_profile :
    (newDispatcher ⟨[], MetaWeight⟩).1 = Except.ok ⟨[], 0⟩
    ∧ ¬ 1 ≤ (WeightDispatcher.mk [] 0).MaxConns :=
  ⟨rfl, by decide⟩

/-- Claim C5 (amended): `MaxConns` always returns the number of connections
in the most recently applied profile (at construction or via `SetProfile`);
it is ≥ 1 whenever that profile has at least one connection (the code does
not reject empty profiles, so the unconditional lower bound fails). -/
theorem maxConns_tracks_profile (pfl : DispatcherProfile)
    (wd d : WeightDispatcher) (hok : (newDispatcher pfl).1 = Except.ok d) :
    d.MaxConns = pfl.Conns.length
    ∧ (wd.SetProfile pfl).1.MaxConns = pfl.Conns.length
    ∧ (pfl.Conns ≠ [] →
        1 ≤ d.MaxConns ∧ 1 ≤ (wd.SetProfile pfl).1.MaxConns) := by
  have hd : d.conns = pfl.Conns.Sort.Clone := by
    by_cases h : pfl.Strategy = MetaWeight
    · simp [newDispatcher, h] at hok
      rw [← hok]
    · simp [newDispatcher, h] at hok
  have hdl : d.MaxConns = pfl.Conns.length := by
    rw [WeightDispatcher.MaxConns, hd, clone_eq, length_sort]
  have hsl : (wd.SetProfile pfl).1.MaxConns = pfl.Conns.length := by
    simp [WeightDispatcher.SetProfile, WeightDispatcher.MaxConns, clone_eq,
      length_sort]
  refine ⟨hdl, hsl, fun hne => ?_⟩
  have := List.length_pos.mpr hne
  omega

/-- Witness for C5's amended theorem at a one-connection profile. -/
theorem maxConns_tracks_profile_witness :
    (WeightDispatcher.mk [⟨"A",10⟩] 0).MaxConns
        = (DispatcherProfile.mk [⟨"A",10⟩] MetaWeight).Conns.length
    ∧ ((WeightDispatcher.mk [] 0).SetProfile
        ⟨[⟨"A",10⟩], MetaWeight⟩).1.MaxConns
        = (DispatcherProfile.mk [⟨"A",10⟩] MetaWeight).Conns.length
    ∧ ((DispatcherProfile.mk [⟨"A",10⟩] MetaWeight).Conns ≠ [] →
        1 ≤ (WeightDispatcher.mk [⟨"A",10⟩] 0).MaxConns
        ∧ 1 ≤ ((WeightDispatcher.mk [] 0).SetProfile
            ⟨[⟨"A",10⟩], MetaWeight⟩).1.MaxConns) :=
  maxConns_tracks_profile ⟨[⟨"A",10⟩], MetaWeight⟩ ⟨[], 0⟩ ⟨[⟨"A",10⟩], 0⟩ rfl

/-- Claim C6: the factory fails with the unsupported-strategy error exactly
when the strategy name is not the recognized weighted name; in the error
case no selector is returned (Go's `d` stays nil, here `Except.error`
carries no dispatcher), and for the recognized name it returns the weighted
round-robin selector (clone of the sorted pool, cursor 0) with no error. -/
theorem newDispatcher_strategy_dispatch (pfl : DispatcherProfile) :
    ((∃ e, (newDispatcher pfl).1 = Except.error e) ↔ pfl.Strategy ≠ MetaWeight)
    ∧ (pfl.Strategy = MetaWeight →
        (newDispatcher pfl).1
          = Except.ok { conns := pfl.Conns.Sort.Clone, nextConnIdx := 0 })
    ∧ (pfl.Strategy ≠ MetaWeight →
        (newDispatcher pfl).1
          = Except.error
              ("unsupported dispatch strategy: <" ++ pfl.Strategy ++ ">")) := by
  by_cases h : pfl.Strategy = MetaWeight <;>
    simp [newDispatcher, h]

/-- Witness for C6: an unrecognized strategy name yields the error (applied
via the theorem at a concrete profile). -/
theorem newDispatcher_strategy_dispatch_witness :
    (newDispatcher ⟨[⟨"A",10⟩], "*random"⟩).1
      = Except.error
          ("unsupported dispatch strategy: <"
            ++ (DispatcherProfile.mk [⟨"A",10⟩] "*random").Strategy ++ ">") :=
  (newDispatcher_strategy_dispatch ⟨[⟨"A",10⟩], "*random"⟩).2.2 (by decide)

theorem nextConnID_of_lt (wd : WeightDispatcher)
    (h : wd.nextConnIdx < wd.conns.length) :
    wd.NextConnID
      = some ((wd.conns.get ⟨wd.nextConnIdx, h⟩).ID, wd.incrNextConnIdx) := by
  simp [WeightDispatcher.NextConnID, List.getElem?_eq_getElem h]

theorem incr_conns (wd : WeightDispatcher) :
    wd.incrNextConnIdx.conns = wd.conns := by
  simp only [WeightDispatcher.incrNextConnIdx]
  split <;> rfl

theorem nextConnID_conns (wd : WeightDispatcher) (s : String)
    (wd' : WeightDispatcher) (h : wd.NextConnID = some (s, wd')) :
    wd'.conns = wd.conns := by
  rw [WeightDispatcher.NextConnID] at h
  rcases hg : wd.conns[wd.nextConnIdx]? with _ | c <;> simp only [hg] at h
  · exact absurd h (by simp)
  · simp only [Option.some.injEq, Prod.mk.injEq] at h
    rw [← h.2]
    exact incr_conns wd

theorem advance_conns (wd : WeightDispatcher) : wd.advance.conns = wd.conns := by
  rw [WeightDispatcher.advance]
  rcases h : wd.NextConnID with _ | ⟨s, wd1⟩
  · rfl
  · exact nextConnID_conns wd s wd1 h

theorem advance_iter_conns (wd : WeightDispatcher) (k : Nat) :
    (WeightDispatcher.advance^[k] wd).conns = wd.conns := by
  induction k with
  | zero => rfl
  | succ n ih =>
    rw [Function.iterate_succ_apply', advance_conns, ih]

/-- Claim C3: after `SetProfile` with a non-empty profile the cursor is reset
to 0 and the next `NextConnID` returns the new sorted pool's first element,
whose weight dominates every connection of the new pool; the statement is
universally quantified over the prior selector state, so neither the prior
pool nor the prior rotation offset influences the result. -/
theorem setProfile_resets_rotation (wd : WeightDispatcher)
    (pfl : DispatcherProfile) (hne : pfl.Conns ≠ []) :
    (wd.SetProfile pfl).1.nextConnIdx = 0
    ∧ ∃ c wd', pfl.Conns.Sort.head? = some c
        ∧ (wd.SetProfile pfl).1.NextConnID = some (c.ID, wd')
        ∧ ∀ d ∈ pfl.Conns, d.Weight ≤ c.Weight := by
  have h1 : (wd.SetProfile pfl).1 = ⟨pfl.Conns.Sort, 0⟩ := by
    simp [WeightDispatcher.SetProfile, clone_eq]
  rcases List.exists_cons_of_ne_nil (sort_ne_nil pfl.Conns hne) with ⟨c, rest, hcs⟩
  have hdom : ∀ d ∈ pfl.Conns, d.Weight ≤ c.Weight := by
    intro d hd
    have hd' : d ∈ pfl.Conns.Sort := (sort_perm pfl.Conns).mem_iff.mpr hd
    rw [hcs] at hd'
    rcases List.mem_cons.mp hd' with h | h
    · rw [h]
    · have hs := sort_sorted pfl.Conns
      rw [hcs] at hs
      exact (List.sorted_cons.mp hs).1 d h
  refine ⟨by rw [h1], c, WeightDispatcher.incrNextConnIdx ⟨c :: rest, 0⟩,
    by rw [hcs]; rfl, ?_, hdom⟩
  rw [h1, hcs, nextConnID_in_bounds (c :: rest) 0 (by simp)]
  rfl

/-- Witness for C3: reconfiguring a selector whose cursor is at 1 over an
unrelated pool with the profile `[{A,10},{B,20}]` makes the next call
return `B`. -/
theorem setProfile_resets_rotation_witness :
    ((WeightDispatcher.mk [⟨"X",99⟩,⟨"Y",98⟩] 1).SetProfile
        ⟨[⟨"A",10⟩,⟨"B",20⟩], MetaWeight⟩).1.nextConnIdx = 0
    ∧ ∃ c wd',
        (DispatcherProfile.mk [⟨"A",10⟩,⟨"B",20⟩] MetaWeight).Conns.Sort.head?
          = some c
        ∧ ((WeightDispatcher.mk [⟨"X",99⟩,⟨"Y",98⟩] 1).SetProfile
            ⟨[⟨"A",10⟩,⟨"B",20⟩], MetaWeight⟩).1.NextConnID = some (c.ID, wd')
        ∧ ∀ d ∈ (DispatcherProfile.mk [⟨"A",10⟩,⟨"B",20⟩] MetaWeight).Conns,
            d.Weight ≤ c.Weight :=
  setProfile_resets_rotation ⟨[⟨"X",99⟩,⟨"Y",98⟩], 1⟩
    ⟨[⟨"A",10⟩,⟨"B",20⟩], MetaWeight⟩ (by decide)

/-- Claim C4: however far the source selector's cursor has advanced (k prior
`NextConnID` calls), `GetInstance` leaves the source state unchanged and
returns a clone whose pool is a (deep) copy of the source's pool and whose
cursor is 0, so the clone's first `NextConnID` call returns the pool's first
element.  In this state-passing embedding every operation returns a new
value, so the clone's and the source's subsequent evolutions are functions
of their own states alone: the conjuncts pin both states at the moment of
cloning. -/
theorem getInstance_fresh_clone (wd : WeightDispatcher) (k : Nat)
    (hne : wd.conns ≠ []) :
    (WeightDispatcher.advance^[k] wd).GetInstance.2
        = WeightDispatcher.advance^[k] wd
    ∧ (WeightDispatcher.advance^[k] wd).GetInstance.1 = ⟨wd.conns.Clone, 0⟩
    ∧ ∃ c wd', wd.conns.head? = some c
        ∧ (WeightDispatcher.advance^[k] wd).GetInstance.1.NextConnID
            = some (c.ID, wd') := by
  have hconns := advance_iter_conns wd k
  refine ⟨rfl, ?_, ?_⟩
  · rw [WeightDispatcher.GetInstance, hconns]
  · rcases List.exists_cons_of_ne_nil hne with ⟨c, rest, hcs⟩
    refine ⟨c, WeightDispatcher.incrNextConnIdx ⟨c :: rest, 0⟩,
      by rw [hcs]; rfl, ?_⟩
    rw [WeightDispatcher.GetInstance]
    simp only [hconns, hcs, clone_eq]
    rw [nextConnID_in_bounds (c :: rest) 0 (by simp)]
    rfl

/-- Witness for C4: a two-connection selector advanced 3 times still clones
to a fresh instance whose first call returns the first pool element. -/
theorem getInstance_fresh_clone_witness :
    (WeightDispatcher.advance^[3]
        (WeightDispatcher.mk [⟨"B",20⟩,⟨"A",10⟩] 0)).GetInstance.2
      = WeightDispatcher.advance^[3] (WeightDispatcher.mk [⟨"B",20⟩,⟨"A",10⟩] 0)
    ∧ (WeightDispatcher.advance^[3]
        (WeightDispatcher.mk [⟨"B",20⟩,⟨"A",10⟩] 0)).GetInstance.1
      = ⟨DispatcherConns.Clone [⟨"B",20⟩,⟨"A",10⟩], 0⟩
    ∧ ∃ c wd', ([⟨"B",20⟩,⟨"A",10⟩] : DispatcherConns).head? = some c
        ∧ (WeightDispatcher.advance^[3]
            (WeightDispatcher.mk [⟨"B",20⟩,⟨"A",10⟩] 0)).GetInstance.1.NextConnID
          = some (c.ID, wd') :=
  getInstance_fresh_clone ⟨[⟨"B",20⟩,⟨"A",10⟩], 0⟩ 3 (by decide)

theorem collectNext_conns (n : Nat) :
    ∀ wd ids wd', collectNext wd n = some (ids, wd') → wd'.conns = wd.conns := by
  induction n with
  | zero =>
    intro wd ids wd' h
    simp only [collectNext, Option.some.injEq, Prod.mk.injEq] at h
    rw [← h.2]
  | succ m ih =>
    intro wd ids wd' h
    simp only [collectNext] at h
    rcases h1 : wd.NextConnID with _ | ⟨s, wd1⟩ <;> simp only [h1] at h
    · exact absurd h (by simp)
    · rcases h2 : collectNext wd1 m with _ | ⟨ids2, wd2⟩ <;> simp only [h2] at h
      · exact absurd h (by simp)
      · simp only [Option.some.injEq, Prod.mk.injEq] at h
        rw [← h.2, ih wd1 ids2 wd2 h2, nextConnID_conns wd s wd1 h1]

/-- Claim C10: `NextConnID` modifies only the rotation cursor: after any
sequence of successful `NextConnID` calls the pool (descriptors, count and
order) is exactly the one before, and `MaxConns` is unchanged. -/
theorem nextConnID_pool_frame (wd : WeightDispatcher) (n : Nat)
    (ids : List String) (wd' : WeightDispatcher)
    (h : collectNext wd n = some (ids, wd')) :
    wd'.conns = wd.conns ∧ wd'.MaxConns = wd.MaxConns := by
  have hc := collectNext_conns n wd ids wd' h
  exact ⟨hc, by rw [WeightDispatcher.MaxConns, WeightDispatcher.MaxConns, hc]⟩

/-- Witness for C10: five calls on a two-connection selector leave the pool
and `MaxConns` unchanged. -/
theorem nextConnID_pool_frame_witness :
    (WeightDispatcher.mk [⟨"B",20⟩,⟨"A",10⟩] 1).conns
      = (WeightDispatcher.mk [⟨"B",20⟩,⟨"A",10⟩] 0).conns
    ∧ (WeightDispatcher.mk [⟨"B",20⟩,⟨"A",10⟩] 1).MaxConns
      = (WeightDispatcher.mk [⟨"B",20⟩,⟨"A",10⟩] 0).MaxConns :=
  nextConnID_pool_frame ⟨[⟨"B",20⟩,⟨"A",10⟩], 0⟩ 5 ["B","A","B","A","B"]
    ⟨[⟨"B",20⟩,⟨"A",10⟩], 1⟩ (by decide)

/-- The cursor invariant: the rotation cursor is a valid index into the
current pool. -/
def cursorInBounds (wd : WeightDispatcher) : Prop :=
  wd.nextConnIdx < wd.conns.length

instance (wd : WeightDispatcher) : Decidable (cursorInBounds wd) :=
  inferInstanceAs (Decidable (wd.nextConnIdx < wd.conns.length))

/-- The operations a caller can perform on a selector; `getInst` continues
with the returned clone. -/
inductive DispatcherOp where
  | next : DispatcherOp
  | setProf : DispatcherProfile → DispatcherOp
  | getInst : DispatcherOp

/-- Apply one operation to the selector state. -/
def applyOp (wd : WeightDispatcher) : DispatcherOp → WeightDispatcher
  | DispatcherOp.next => wd.advance
  | DispatcherOp.setProf p => (wd.SetProfile p).1
  | DispatcherOp.getInst => wd.GetInstance.1

/-- An operation carries a non-empty profile (trivially true for the
profile-free operations). -/
def opNonEmpty : DispatcherOp → Prop
  | DispatcherOp.setProf p => p.Conns ≠ []
  | DispatcherOp.next => True
  | DispatcherOp.getInst => True

instance (op : DispatcherOp) : Decidable (opNonEmpty op) := by
  rcases op with _ | p | _ <;> simp only [opNonEmpty] <;> infer_instance

theorem incr_in_bounds (wd : WeightDispatcher) (h : cursorInBounds wd) :
    cursorInBounds wd.incrNextConnIdx := by
  rw [cursorInBounds] at h
  simp only [cursorInBounds, WeightDispatcher.incrNextConnIdx]
  split
  · show 0 < wd.conns.length
    omega
  · show wd.nextConnIdx + 1 < wd.conns.length
    rename_i h2
    omega

theorem advance_in_bounds (wd : WeightDispatcher) (h : cursorInBounds wd) :
    cursorInBounds wd.advance := by
  rw [WeightDispatcher.advance, nextConnID_of_lt wd h]
  exact incr_in_bounds wd h

theorem setProfile_in_bounds (wd : WeightDispatcher) (p : DispatcherProfile)
    (hne : p.Conns ≠ []) : cursorInBounds (wd.SetProfile p).1 := by
  show 0 < p.Conns.Sort.Clone.length
  rw [clone_eq, length_sort]
  exact List.length_pos.mpr hne

theorem getInstance_in_bounds (wd : WeightDispatcher) (h : cursorInBounds wd) :
    cursorInBounds wd.GetInstance.1 := by
  rw [cursorInBounds] at h
  show 0 < wd.conns.Clone.length
  rw [clone_eq]
  omega

theorem foldl_in_bounds (ops : List DispatcherOp) :
    ∀ wd, cursorInBounds wd → (∀ op ∈ ops, opNonEmpty op) →
      cursorInBounds (ops.foldl applyOp wd) := by
  induction ops with
  | nil => intro wd h _; exact h
  | cons op rest ih =>
    intro wd h hops
    rw [List.foldl_cons]
    refine ih (applyOp wd op) ?_ (fun o ho => hops o (List.mem_cons_of_mem _ ho))
    rcases op with _ | p | _
    · exact advance_in_bounds wd h
    · exact setProfile_in_bounds wd p (hops _ (List.mem_cons_self _ _))
    · exact getInstance_in_bounds wd h

/-- Claim C7: for selectors over non-empty pools the rotation cursor is a
valid index into the current pool after every operation: it is 0 after
construction, after `GetInstance` and after `SetProfile`; a `NextConnID`
call preserves validity; and the invariant is preserved by every sequence
of operations whose profiles are non-empty. -/
theorem cursor_invariant_preserved (pfl : DispatcherProfile)
    (d wd : WeightDispatcher) (ops : List DispatcherOp)
    (hok : (newDispatcher pfl).1 = Except.ok d) (hne : pfl.Conns ≠ [])
    (hwd : cursorInBounds wd) (hops : ∀ op ∈ ops, opNonEmpty op) :
    d.nextConnIdx = 0 ∧ cursorInBounds d
    ∧ wd.GetInstance.1.nextConnIdx = 0
    ∧ ∀ q : DispatcherProfile, (wd.SetProfile q).1.nextConnIdx = 0
    ∧ cursorInBounds wd.advance
    ∧ cursorInBounds (ops.foldl applyOp wd) := by
  have hd : d = ⟨pfl.Conns.Sort.Clone, 0⟩ := by
    by_cases h : pfl.Strategy = MetaWeight
    · simp [newDispatcher, h, clone_eq] at hok ⊢
      rw [← hok]
    · simp [newDispatcher, h] at hok
  refine ⟨by rw [hd], ?_, rfl, fun q => ⟨rfl, ?_, ?_⟩⟩
  · rw [hd]
    show 0 < pfl.Conns.Sort.Clone.length
    rw [clone_eq, length_sort]
    exact List.length_pos.mpr hne
  · exact advance_in_bounds wd hwd
  · exact foldl_in_bounds ops wd hwd hops

/-- Witness for C7 on a concrete run: factory on `[{A,10},{B,20}]`, then the
sequence next, clone, reconfigure with `[{C,5}]`, next. -/
theorem cursor_invariant_preserved_witness :
    (WeightDispatcher.mk [⟨"B",20⟩,⟨"A",10⟩] 0).nextConnIdx = 0
    ∧ cursorInBounds (WeightDispatcher.mk [⟨"B",20⟩,⟨"A",10⟩] 0)
    ∧ (WeightDispatcher.mk [⟨"B",20⟩,⟨"A",10⟩] 1).GetInstance.1.nextConnIdx = 0
    ∧ ∀ q : DispatcherProfile,
        ((WeightDispatcher.mk [⟨"B",20⟩,⟨"A",10⟩] 1).SetProfile q).1.nextConnIdx = 0
        ∧ cursorInBounds (WeightDispatcher.mk [⟨"B",20⟩,⟨"A",10⟩] 1).advance
        ∧ cursorInBounds
            (([DispatcherOp.next, DispatcherOp.getInst,
               DispatcherOp.setProf ⟨[⟨"C",5⟩], MetaWeight⟩,
               DispatcherOp.next]).foldl applyOp
              (WeightDispatcher.mk [⟨"B",20⟩,⟨"A",10⟩] 1)) :=
  cursor_invariant_preserved ⟨[⟨"A",10⟩,⟨"B",20⟩], MetaWeight⟩
    ⟨[⟨"B",20⟩,⟨"A",10⟩], 0⟩ ⟨[⟨"B",20⟩,⟨"A",10⟩], 1⟩
    [DispatcherOp.next, DispatcherOp.getInst,
     DispatcherOp.setProf ⟨[⟨"C",5⟩], MetaWeight⟩, DispatcherOp.next]
    rfl (by decide) (by decide) (by decide)

/-- Counterexample for C8: neither the factory nor `SetProfile` rejects an
empty pool — both accept it without error — and `NextConnID` on the
resulting selector then hits the out-of-range branch (Go panic, `none`
here), so the enforcement part of the claim fails on the code. -/
theorem empty_pool_not_rejected :
    (newDispatcher ⟨[], MetaWeight⟩).1 = Except.ok ⟨[], 0⟩
    ∧ ((WeightDispatcher.mk [⟨"A",1⟩] 0).SetProfile ⟨[], MetaWeight⟩).1 = ⟨[], 0⟩
    ∧ (WeightDispatcher.mk [] 0).NextConnID = none :=
  ⟨rfl, rfl, rfl⟩

/-- Claim C8 (amended): for a selector satisfying the cursor invariant (as
all selectors reachable through non-empty profiles do) the slice indexing in
`NextConnID` is in bounds — the out-of-range branch is unreachable — and on
an empty pool `NextConnID` fails loudly (the Go index panic, `none` here)
rather than silently returning an identifier; however the factory and
`SetProfile` do not enforce non-empty pools (see the counterexample). -/
theorem nextConnID_index_safety (wd we : WeightDispatcher)
    (h : cursorInBounds wd) (he : we.conns = []) :
    (∃ c wd', wd.conns[wd.nextConnIdx]? = some c
        ∧ wd.NextConnID = some (c.ID, wd'))
    ∧ we.NextConnID = none := by
  constructor
  · exact ⟨wd.conns.get ⟨wd.nextConnIdx, h⟩, wd.incrNextConnIdx,
      List.getElem?_eq_getElem h, nextConnID_of_lt wd h⟩
  · simp [WeightDispatcher.NextConnID, he]

/-- Witness for C8's amended theorem: a one-connection selector succeeds; an
empty-pool selector fails. -/
theorem nextConnID_index_safety_witness :
    (∃ c wd',
        ((WeightDispatcher.mk [⟨"A",7⟩] 0).conns[
            (WeightDispatcher.mk [⟨"A",7⟩] 0).nextConnIdx]? = some c)
        ∧ (WeightDispatcher.mk [⟨"A",7⟩] 0).NextConnID = some (c.ID, wd'))
    ∧ (WeightDispatcher.mk [] 3).NextConnID = none :=
  nextConnID_index_safety ⟨[⟨"A",7⟩], 0⟩ ⟨[], 3⟩ (by decide) rfl

/-- Shared-memory state of the long-lived selector for the interleaving
model: the two data fields of `WeightDispatcher`, the writer side of the
embedded `sync.RWMutex`, and a flag recording an out-of-range slice access
(Go's index panic). -/
structure ConcState where
  conns : DispatcherConns
  nextConnIdx : Nat
  writerLocked : Bool
  panicked : Bool
  deriving DecidableEq

/-- The atomic memory and lock actions appearing in the bodies of the
`WeightDispatcher` methods. -/
inductive MemAction where
  | lockW : MemAction
  | unlockW : MemAction
  | readConnAtIdx : MemAction
  | incrIdx : MemAction
  | writeConns : DispatcherConns → MemAction
  | writeIdxZero : MemAction
  deriving DecidableEq

/-- Effect of one atomic action; `none` when the action blocks (acquiring the
write lock while it is held).  `readConnAtIdx` is the slice access
`wd.conns[wd.nextConnIdx]` of source line 89 and sets the panic flag when the
cursor is out of range; `incrIdx` is `incrNextConnIdx` (source lines 65-70). -/
def stepAction (s : ConcState) : MemAction → Option ConcState
  | MemAction.lockW =>
      if s.writerLocked then none else some { s with writerLocked := true }
  | MemAction.unlockW => some { s with writerLocked := false }
  | MemAction.readConnAtIdx =>
      if s.nextConnIdx < s.conns.length then some s
      else some { s with panicked := true }
  | MemAction.incrIdx =>
      some { s with nextConnIdx :=
        if s.nextConnIdx + 1 > s.conns.length - 1 then 0
        else s.nextConnIdx + 1 }
  | MemAction.writeConns cs => some { s with conns := cs }
  | MemAction.writeIdxZero => some { s with nextConnIdx := 0 }

/-- The atomic actions of `NextConnID` (source lines 88-92).  The method
contains no lock acquisition: it performs the slice read and calls
`incrNextConnIdx` directly, although the comment on `incrNextConnIdx`
(source lines 63-64) states it "needs to be locked in a layer above". -/
def nextConnIDActions : List MemAction :=
  [MemAction.readConnAtIdx, MemAction.incrIdx]

/-- The atomic actions of `SetProfile` (source lines 72-79): acquire the
write lock, store the cloned sorted pool, reset the cursor, release. -/
def setProfileActions (pfl : DispatcherProfile) : List MemAction :=
  [MemAction.lockW, MemAction.writeConns pfl.Conns.Sort.Clone,
   MemAction.writeIdxZero, MemAction.unlockW]

/-- `Interleaves xs ys zs`: `zs` is an order-preserving merge of the action
sequences `xs` and `ys` of two threads. -/
inductive Interleaves :
    List MemAction → List MemAction → List MemAction → Prop where
  | nil : Interleaves [] [] []
  | left (x xs ys zs) : Interleaves xs ys zs → Interleaves (x :: xs) ys (x :: zs)
  | right (y xs ys zs) : Interleaves xs ys zs → Interleaves xs (y :: ys) (y :: zs)

/-- Run a trace of atomic actions from a state; `none` if some action
blocks. -/
def runTrace (s : ConcState) : List MemAction → Option ConcState
  | [] => some s
  | a :: rest =>
    match stepAction s a with
    | some s1 => runTrace s1 rest
    | none => none

/-- Claim C9 fails on the code (code bug): `NextConnID` takes no lock at all
— its action sequence contains no `lockW`, while `SetProfile`'s does — in
conflict with the comment on `incrNextConnIdx` ("needs to be locked in a
layer above") and with the spec.  Concretely: a shared selector over a
three-connection pool whose cursor reached 2 after two `NextConnID` calls
(reachable state, third conjunct) races with a `SetProfile` installing a
one-connection pool; in the interleaving where the unlocked slice read runs
between `SetProfile`'s pool write and its cursor reset, the read indexes a
length-1 pool at position 2 — the out-of-range panic the claim excludes. -/
theorem unlocked_nextConnID_race_panics :
    MemAction.lockW ∉ nextConnIDActions
    ∧ MemAction.lockW ∈ setProfileActions ⟨[⟨"d1",5⟩], MetaWeight⟩
    ∧ (∃ wd2, collectNext ⟨[⟨"c1",30⟩,⟨"c2",20⟩,⟨"c3",10⟩], 0⟩ 2
        = some (["c1","c2"], wd2)
        ∧ wd2.nextConnIdx = 2
        ∧ wd2.conns = [⟨"c1",30⟩,⟨"c2",20⟩,⟨"c3",10⟩])
    ∧ ∃ tr, Interleaves nextConnIDActions
        (setProfileActions ⟨[⟨"d1",5⟩], MetaWeight⟩) tr
      ∧ ∃ sEnd,
          runTrace ⟨[⟨"c1",30⟩,⟨"c2",20⟩,⟨"c3",10⟩], 2, false, false⟩ tr
            = some sEnd
          ∧ sEnd.panicked = true := by
  refine ⟨by decide, by decide,
    ⟨⟨[⟨"c1",30⟩,⟨"c2",20⟩,⟨"c3",10⟩], 2⟩, by decide, rfl, rfl⟩, ?_⟩
  refine ⟨[MemAction.lockW,
           MemAction.writeConns
             (DispatcherProfile.mk [⟨"d1",5⟩] MetaWeight).Conns.Sort.Clone,
           MemAction.readConnAtIdx, MemAction.incrIdx,
           MemAction.writeIdxZero, MemAction.unlockW], ?_, ?_⟩
  · show Interleaves
      [MemAction.readConnAtIdx, MemAction.incrIdx]
      [MemAction.lockW,
       MemAction.writeConns
         (DispatcherProfile.mk [⟨"d1",5⟩] MetaWeight).Conns.Sort.Clone,
       MemAction.writeIdxZero, MemAction.unlockW]
      [MemAction.lockW,
       MemAction.writeConns
         (DispatcherProfile.mk [⟨"d1",5⟩] MetaWeight).Conns.Sort.Clone,
       MemAction.readConnAtIdx, MemAction.incrIdx,
       MemAction.writeIdxZero, MemAction.unlockW]
    apply Interleaves.right
    apply Interleaves.right
    apply Interleaves.left
    apply Interleaves.left
    apply Interleaves.right
    apply Interleaves.right
    exact Interleaves.nil
  · exact ⟨⟨[⟨"d1",5⟩], 0, false, true⟩, by decide, rfl⟩
